import Mathlib

/-!
Verification of the bump-pointer ("linear area") allocation core of
`src/heap/spaces.cc`: the buffer-limit computation `ComputeLimit`, the
`LocalAllocationBuffer` lifecycle (close / make-iterable / move), and the
`SpaceIterator` enumeration of the heap's mutable spaces.

Addresses (`Address`) and sizes (`size_t`) are modelled as `Nat`; all
functions carry the preconditions (`start ≤ end`, `min_size ≤ end - start`)
under which the unsigned C++ arithmetic and the `Nat` arithmetic agree.
-/

/-- Heap-level state read by `ComputeLimit`: the results of the heap queries
`IsInGC()`, `IsInlineAllocationEnabled()`, `IsAllocationObserverActive()`,
and the global configuration flag `v8_flags.stress_marking`. -/
structure HeapState where
  isInGC : Bool
  isInlineAllocationEnabled : Bool
  isAllocationObserverActive : Bool
  stress_marking : Bool
deriving DecidableEq

/-- Modelled from the spec: `LinearAllocationArea` is declared in
`src/heap/spaces.h`, which is not part of the sources. Per spec section 3 it is
a plain value type holding `(start, top, limit)` addresses, with the sentinel
null value `start = top = limit = 0` denoting "no active buffer". -/
structure LinearAllocationArea where
  start : Nat
  top : Nat
  limit : Nat
deriving DecidableEq

/-- Modelled from the spec: the sentinel "null" linear allocation area
(`start = top = limit = 0`, i.e. all fields `kNullAddress`). -/
def LinearAllocationArea.null : LinearAllocationArea := ⟨0, 0, 0⟩

/-- Space-level state read by `ComputeLimit`: the result of the virtual query
`SupportsAllocationObserver()`, the allocation counter's `NextBytes()`, the
object alignment used by `RoundSizeDownToObjectAlignment` (a property of the
space's identity), and the space's tracked `allocation_info()`. -/
structure SpaceState where
  supportsAllocationObserver : Bool
  nextBytes : Nat
  objectAlignment : Nat
  allocation_info : LinearAllocationArea
deriving DecidableEq

/-- Modelled from the spec: `RoundSizeDownToObjectAlignment` is declared in
`src/heap/spaces.h`, which is not part of the sources. Per spec section 4.1 it
rounds a size down to the object alignment of the space: the largest multiple
of `align` not exceeding `size`. -/
def RoundSizeDownToObjectAlignment (align size : Nat) : Nat :=
  size - size % align

/-- `SpaceWithLinearArea::ComputeLimit(start, end, min_size)` from
`src/heap/spaces.cc`. During GC the full LAB `end` is used; with inline
allocation disabled the requested area is fitted exactly; otherwise the step
size starts at `end - start`, is lowered to the rounded observer step when an
allocation observer is active, is clamped to 64 under `stress_marking`, and
the result is `start + max(step_size, min_size)`. -/
def ComputeLimit (heap : HeapState) (space : SpaceState)
    (start end_ min_size : Nat) : Nat :=
  if heap.isInGC then end_
  else if !heap.isInlineAllocationEnabled then start + min_size
  else
    let step_size0 := end_ - start
    let step_size1 :=
      if space.supportsAllocationObserver && heap.isAllocationObserverActive then
        min step_size0
          (RoundSizeDownToObjectAlignment space.objectAlignment (space.nextBytes - 1))
      else step_size0
    let step_size2 := if heap.stress_marking then min step_size1 64 else step_size1
    start + max step_size2 min_size

/-- State-passing form of the `const` method `ComputeLimit`: every operation
its body performs is a query (spec section 6 lists them all as pure
reads), so the heap and space states come back unchanged. -/
def ComputeLimitS (heap : HeapState) (space : SpaceState)
    (start end_ min_size : Nat) : Nat × HeapState × SpaceState :=
  (ComputeLimit heap space start end_ min_size, heap, space)

/-- C1: for every `start ≤ end`, `min_size ≤ end - start`, and every
combination of the GC, inline-allocation, observer and stress-flag states,
`ComputeLimit start end min_size` lies in `[start + min_size, end]`. -/
theorem ComputeLimit_in_range (heap : HeapState) (space : SpaceState)
    (start end_ min_size : Nat)
    (h1 : start ≤ end_) (h2 : min_size ≤ end_ - start) :
    start + min_size ≤ ComputeLimit heap space start end_ min_size ∧
      ComputeLimit heap space start end_ min_size ≤ end_ := by
  unfold ComputeLimit
  split
  · omega
  · split
    · omega
    · dsimp only
      split <;> split <;> omega

/-- C1 witness: the bounds at a concrete state and concrete inputs. -/
theorem ComputeLimit_in_range_witness :
    4096 + 16 ≤
        ComputeLimit ⟨false, true, false, false⟩ ⟨true, 256, 8, ⟨0, 0, 0⟩⟩
          4096 8192 16 ∧
      ComputeLimit ⟨false, true, false, false⟩ ⟨true, 256, 8, ⟨0, 0, 0⟩⟩
          4096 8192 16 ≤ 8192 :=
  ComputeLimit_in_range ⟨false, true, false, false⟩ ⟨true, 256, 8, ⟨0, 0, 0⟩⟩
    4096 8192 16 (by decide) (by decide)

/-- C3: whenever the heap is in GC, `ComputeLimit` returns `end`, regardless
of the inline-allocation, observer and stress-flag states. -/
theorem ComputeLimit_in_gc (heap : HeapState) (space : SpaceState)
    (start end_ min_size : Nat)
    (h2 : min_size ≤ end_ - start) (hgc : heap.isInGC = true) :
    ComputeLimit heap space start end_ min_size = end_ := by
  unfold ComputeLimit
  simp [hgc]

/-- C3 witness: during GC the full region is returned at a concrete state. -/
theorem ComputeLimit_in_gc_witness :
    ComputeLimit ⟨true, false, true, true⟩ ⟨true, 256, 8, ⟨0, 0, 0⟩⟩
      4096 8192 16 = 8192 :=
  ComputeLimit_in_gc ⟨true, false, true, true⟩ ⟨true, 256, 8, ⟨0, 0, 0⟩⟩
    4096 8192 16 (by decide) (by decide)

/-- C4: with the heap not in GC and inline allocation disabled,
`ComputeLimit` returns exactly `start + min_size`, regardless of the observer
and stress-flag states. -/
theorem ComputeLimit_inline_disabled (heap : HeapState) (space : SpaceState)
    (start end_ min_size : Nat)
    (h2 : min_size ≤ end_ - start) (hgc : heap.isInGC = false)
    (hinl : heap.isInlineAllocationEnabled = false) :
    ComputeLimit heap space start end_ min_size = start + min_size := by
  unfold ComputeLimit
  simp [hgc, hinl]

/-- C4 witness: the exact fit at a concrete state. -/
theorem ComputeLimit_inline_disabled_witness :
    ComputeLimit ⟨false, false, true, true⟩ ⟨true, 256, 8, ⟨0, 0, 0⟩⟩
      4096 8192 16 = 4096 + 16 :=
  ComputeLimit_inline_disabled ⟨false, false, true, true⟩
    ⟨true, 256, 8, ⟨0, 0, 0⟩⟩ 4096 8192 16 (by decide) (by decide) (by decide)

/-- C5: with the stress-marking flag set, the heap not in GC and inline
allocation enabled, `ComputeLimit` is at most `start + max 64 min_size`; and
at the concrete inputs `start = 0x1000`, `end = 0x2000`, `min_size = 0x10`
with no active observer it equals `0x1040`. -/
theorem ComputeLimit_stress_bound (heap : HeapState) (space : SpaceState)
    (start end_ min_size : Nat)
    (h2 : min_size ≤ end_ - start) (hgc : heap.isInGC = false)
    (hinl : heap.isInlineAllocationEnabled = true)
    (hstress : heap.stress_marking = true) :
    ComputeLimit heap space start end_ min_size ≤ start + max 64 min_size ∧
      ComputeLimit ⟨false, true, false, true⟩ ⟨true, 256, 8, ⟨0, 0, 0⟩⟩
        0x1000 0x2000 0x10 = 0x1040 := by
  constructor
  · simp only [ComputeLimit, hgc, hinl, hstress, Bool.not_true, Bool.false_eq_true,
      if_false, if_true]
    split <;> omega
  · decide

/-- C5 witness: the stress bound and the concrete example at a concrete
state. -/
theorem ComputeLimit_stress_bound_witness :
    ComputeLimit ⟨false, true, false, true⟩ ⟨true, 256, 8, ⟨0, 0, 0⟩⟩
        0x1000 0x2000 0x10 ≤ 0x1000 + max 64 0x10 ∧
      ComputeLimit ⟨false, true, false, true⟩ ⟨true, 256, 8, ⟨0, 0, 0⟩⟩
        0x1000 0x2000 0x10 = 0x1040 :=
  ComputeLimit_stress_bound ⟨false, true, false, true⟩
    ⟨true, 256, 8, ⟨0, 0, 0⟩⟩ 0x1000 0x2000 0x10
    (by decide) (by decide) (by decide) (by decide)

/-- C2: with the heap not in GC, inline allocation enabled, the stress flag
off, and an active allocation observer whose `NextBytes()` is nonzero (and no
unaccounted allocation, i.e. the tracked area's top equals its start),
`ComputeLimit` returns `start + max min_size (round_down(NextBytes - 1))`
clamped so that it does not exceed `end`. -/
theorem ComputeLimit_observer_step (heap : HeapState) (space : SpaceState)
    (start end_ min_size : Nat)
    (h1 : start ≤ end_) (h2 : min_size ≤ end_ - start)
    (hgc : heap.isInGC = false) (hinl : heap.isInlineAllocationEnabled = true)
    (hstress : heap.stress_marking = false)
    (hsup : space.supportsAllocationObserver = true)
    (hact : heap.isAllocationObserverActive = true)
    (hk : space.nextBytes ≠ 0)
    (htop : space.allocation_info.top = space.allocation_info.start) :
    ComputeLimit heap space start end_ min_size =
      min
        (start + max min_size
          (RoundSizeDownToObjectAlignment space.objectAlignment (space.nextBytes - 1)))
        end_ := by
  simp only [ComputeLimit, hgc, hinl, hstress, hsup, hact, Bool.not_true,
    Bool.false_eq_true, Bool.and_self, if_false, if_true]
  generalize RoundSizeDownToObjectAlignment space.objectAlignment (space.nextBytes - 1) = R
  omega

/-- C2 witness: the observer-limited result at a concrete state, where
`NextBytes = 100` and alignment 8 give a rounded step of 96. -/
theorem ComputeLimit_observer_step_witness :
    ComputeLimit ⟨false, true, true, false⟩ ⟨true, 100, 8, ⟨40, 40, 40⟩⟩
        4096 8192 16 =
      min
        (4096 + max 16 (RoundSizeDownToObjectAlignment 8 (100 - 1)))
        8192 :=
  ComputeLimit_observer_step ⟨false, true, true, false⟩
    ⟨true, 100, 8, ⟨40, 40, 40⟩⟩ 4096 8192 16 (by decide) (by decide)
    (by decide) (by decide) (by decide) (by decide) (by decide) (by decide)
    (by decide)

/-- C10: `ComputeLimit` is a pure query: in state-passing form it leaves the
heap state and the space state (allocation info, counter, flags) unchanged,
and a second call from the resulting state returns the same limit. -/
theorem ComputeLimit_pure (heap : HeapState) (space : SpaceState)
    (start end_ min_size : Nat) (h2 : min_size ≤ end_ - start) :
    (ComputeLimitS heap space start end_ min_size).2.1 = heap ∧
      (ComputeLimitS heap space start end_ min_size).2.2 = space ∧
      (ComputeLimitS (ComputeLimitS heap space start end_ min_size).2.1
          (ComputeLimitS heap space start end_ min_size).2.2
          start end_ min_size).1 =
        (ComputeLimitS heap space start end_ min_size).1 :=
  ⟨rfl, rfl, rfl⟩

/-- C10 witness: purity at a concrete state and concrete inputs. -/
theorem ComputeLimit_pure_witness :
    (ComputeLimitS ⟨false, true, false, false⟩ ⟨true, 256, 8, ⟨0, 0, 0⟩⟩
          4096 8192 16).2.1 = ⟨false, true, false, false⟩ ∧
      (ComputeLimitS ⟨false, true, false, false⟩ ⟨true, 256, 8, ⟨0, 0, 0⟩⟩
          4096 8192 16).2.2 = ⟨true, 256, 8, ⟨0, 0, 0⟩⟩ ∧
      (ComputeLimitS
          (ComputeLimitS ⟨false, true, false, false⟩ ⟨true, 256, 8, ⟨0, 0, 0⟩⟩
            4096 8192 16).2.1
          (ComputeLimitS ⟨false, true, false, false⟩ ⟨true, 256, 8, ⟨0, 0, 0⟩⟩
            4096 8192 16).2.2
          4096 8192 16).1 =
        (ComputeLimitS ⟨false, true, false, false⟩ ⟨true, 256, 8, ⟨0, 0, 0⟩⟩
          4096 8192 16).1 :=
  ComputeLimit_pure ⟨false, true, false, false⟩ ⟨true, 256, 8, ⟨0, 0, 0⟩⟩
    4096 8192 16 (by decide)

/-- A filler-object write performed through the external interface
`heap.CreateFillerObjectAtBackground(address, size)` (spec section 6): the
heap effect of `MakeIterable` is recorded as a list of such writes. -/
structure FillerWrite where
  address : Nat
  size : Nat
deriving DecidableEq

/-- `LocalAllocationBuffer` from `src/heap/spaces.cc`: a back-reference to
the heap (modelled as an identifier) plus the owned allocation area. Field
names follow the source members `heap_` and `allocation_info_`. -/
structure LocalAllocationBuffer where
  heap_ : Nat
  allocation_info_ : LinearAllocationArea
deriving DecidableEq

/-- Modelled from the spec: `IsValid()` is declared in `src/heap/spaces.h`,
which is not part of the sources. Per spec section 4.2 it is true iff the
owned area is non-null (the null sentinel has all fields zero). -/
def LocalAllocationBuffer.IsValid (lab : LocalAllocationBuffer) : Bool :=
  decide (lab.allocation_info_ ≠ LinearAllocationArea.null)

/-- `LocalAllocationBuffer::MakeIterable` from `src/heap/spaces.cc`: if the
buffer is valid, write a filler object at `top` spanning `limit - top` bytes
via `CreateFillerObjectAtBackground`; otherwise do nothing. The returned list
records the filler writes performed. -/
def LocalAllocationBuffer.MakeIterable (lab : LocalAllocationBuffer) :
    List FillerWrite :=
  if lab.IsValid then
    [⟨lab.allocation_info_.top,
      lab.allocation_info_.limit - lab.allocation_info_.top⟩]
  else []

/-- `LocalAllocationBuffer::CloseAndMakeIterable` from `src/heap/spaces.cc`:
if valid, perform `MakeIterable`, capture the current area, reset the owned
area to null, and return the captured area; otherwise return a null area.
The result is `(returned area, buffer afterwards, filler writes)`. -/
def LocalAllocationBuffer.CloseAndMakeIterable (lab : LocalAllocationBuffer) :
    LinearAllocationArea × LocalAllocationBuffer × List FillerWrite :=
  if lab.IsValid then
    let writes := lab.MakeIterable
    let old_info := lab.allocation_info_
    (old_info, { lab with allocation_info_ := LinearAllocationArea.null }, writes)
  else
    (LinearAllocationArea.null, lab, [])

/-- Move assignment `LocalAllocationBuffer::operator=(LocalAllocationBuffer&&)`
from `src/heap/spaces.cc`: the destination takes the source's `heap_` and
`allocation_info_`, and the source's area is reset to null. The body performs
no filler write, so the recorded write list is empty. The result is
`(destination afterwards, source afterwards, filler writes)`. -/
def LocalAllocationBuffer.moveAssign (dst src : LocalAllocationBuffer) :
    LocalAllocationBuffer × LocalAllocationBuffer × List FillerWrite :=
  (⟨src.heap_, src.allocation_info_⟩,
   { src with allocation_info_ := LinearAllocationArea.null }, [])

/-- Move construction `LocalAllocationBuffer(LocalAllocationBuffer&&)` from
`src/heap/spaces.cc`: delegates to the move assignment; the destination's
prior (indeterminate) fields are never read, so any placeholder serves. -/
def LocalAllocationBuffer.moveCtor (src : LocalAllocationBuffer) :
    LocalAllocationBuffer × LocalAllocationBuffer × List FillerWrite :=
  LocalAllocationBuffer.moveAssign ⟨0, LinearAllocationArea.null⟩ src

/-- C6: on a valid buffer, `CloseAndMakeIterable` writes the filler over
`[top, limit)` via `MakeIterable`, returns the area held at entry and leaves
the buffer invalid with a null area; on an invalid buffer it returns a null
area and changes nothing; and a second consecutive call always returns a
null area with no side effects. -/
theorem CloseAndMakeIterable_spec (lab : LocalAllocationBuffer) :
    (lab.IsValid = true →
        lab.CloseAndMakeIterable =
          (lab.allocation_info_,
           ⟨lab.heap_, LinearAllocationArea.null⟩,
           [⟨lab.allocation_info_.top,
             lab.allocation_info_.limit - lab.allocation_info_.top⟩]) ∧
          lab.CloseAndMakeIterable.2.2 = lab.MakeIterable ∧
          lab.CloseAndMakeIterable.2.1.IsValid = false) ∧
      (lab.IsValid = false →
        lab.CloseAndMakeIterable = (LinearAllocationArea.null, lab, [])) ∧
      lab.CloseAndMakeIterable.2.1.CloseAndMakeIterable =
        (LinearAllocationArea.null, lab.CloseAndMakeIterable.2.1, []) := by
  by_cases hne : lab.allocation_info_ = LinearAllocationArea.null
  · have hf : lab.IsValid = false := by
      simp [LocalAllocationBuffer.IsValid, hne]
    have hclose : lab.CloseAndMakeIterable =
        (LinearAllocationArea.null, lab, []) := by
      simp [LocalAllocationBuffer.CloseAndMakeIterable, hf]
    refine ⟨fun hc => by simp [hf] at hc, fun _ => hclose, ?_⟩
    rw [hclose]
    simp [LocalAllocationBuffer.CloseAndMakeIterable, hf]
  · have ht : lab.IsValid = true := by
      simp [LocalAllocationBuffer.IsValid, hne]
    have hclose : lab.CloseAndMakeIterable =
        (lab.allocation_info_, ⟨lab.heap_, LinearAllocationArea.null⟩,
          [⟨lab.allocation_info_.top,
            lab.allocation_info_.limit - lab.allocation_info_.top⟩]) := by
      simp [LocalAllocationBuffer.CloseAndMakeIterable,
        LocalAllocationBuffer.MakeIterable, ht]
    refine ⟨fun _ => ⟨hclose, ?_, ?_⟩, fun hc => by simp [ht] at hc, ?_⟩
    · rw [hclose]
      simp [LocalAllocationBuffer.MakeIterable, ht]
    · rw [hclose]
      simp [LocalAllocationBuffer.IsValid]
    · rw [hclose]
      simp [LocalAllocationBuffer.CloseAndMakeIterable,
        LocalAllocationBuffer.IsValid]

/-- C6 witness: closing a concrete valid buffer, then closing the result. -/
theorem CloseAndMakeIterable_spec_witness :
    ((⟨7, ⟨100, 120, 164⟩⟩ : LocalAllocationBuffer).IsValid = true →
        (⟨7, ⟨100, 120, 164⟩⟩ : LocalAllocationBuffer).CloseAndMakeIterable =
          (⟨100, 120, 164⟩,
           ⟨7, LinearAllocationArea.null⟩,
           [⟨120, 164 - 120⟩]) ∧
          (⟨7, ⟨100, 120, 164⟩⟩ :
              LocalAllocationBuffer).CloseAndMakeIterable.2.2 =
            (⟨7, ⟨100, 120, 164⟩⟩ : LocalAllocationBuffer).MakeIterable ∧
          (⟨7, ⟨100, 120, 164⟩⟩ :
              LocalAllocationBuffer).CloseAndMakeIterable.2.1.IsValid = false) ∧
      ((⟨7, ⟨100, 120, 164⟩⟩ : LocalAllocationBuffer).IsValid = false →
        (⟨7, ⟨100, 120, 164⟩⟩ : LocalAllocationBuffer).CloseAndMakeIterable =
          (LinearAllocationArea.null, ⟨7, ⟨100, 120, 164⟩⟩, [])) ∧
      (⟨7, ⟨100, 120, 164⟩⟩ :
          LocalAllocationBuffer).CloseAndMakeIterable.2.1.CloseAndMakeIterable =
        (LinearAllocationArea.null,
         (⟨7, ⟨100, 120, 164⟩⟩ :
            LocalAllocationBuffer).CloseAndMakeIterable.2.1, []) :=
  CloseAndMakeIterable_spec ⟨7, ⟨100, 120, 164⟩⟩

/-- C7: after move-assigning (or move-constructing) buffer A into B, B holds
exactly A's heap reference and allocation area, A's area is null so A is
invalid, and no filler write occurs as a result of the move alone. -/
theorem moveAssign_spec (dst src : LocalAllocationBuffer) :
    (LocalAllocationBuffer.moveAssign dst src).1 =
        ⟨src.heap_, src.allocation_info_⟩ ∧
      (LocalAllocationBuffer.moveAssign dst src).2.1.allocation_info_ =
        LinearAllocationArea.null ∧
      (LocalAllocationBuffer.moveAssign dst src).2.1.IsValid = false ∧
      (LocalAllocationBuffer.moveAssign dst src).2.2 = ([] : List FillerWrite) ∧
      LocalAllocationBuffer.moveCtor src =
        LocalAllocationBuffer.moveAssign dst src := by
  refine ⟨rfl, rfl, ?_, rfl, rfl⟩
  simp [LocalAllocationBuffer.moveAssign, LocalAllocationBuffer.IsValid]

/-- The heap's mutable-space registry as seen by `SpaceIterator`: the query
`heap.space(id)` returning a space or null (spec section 6), together with
the range constants `FIRST_MUTABLE_SPACE` and `LAST_MUTABLE_SPACE` (declared
in `src/common/globals.h`, not part of the sources; spec section 3 only
requires a cursor range `[FIRST_MUTABLE_SPACE, LAST_MUTABLE_SPACE]`).
Spaces are identified by a `Nat`. -/
structure IterHeap where
  space : Nat → Option Nat
  FIRST_MUTABLE_SPACE : Nat
  LAST_MUTABLE_SPACE : Nat

/-- `SpaceIterator` from `src/heap/spaces.cc`: a reference to the heap and
the cursor `current_space_`. -/
structure SpaceIterator where
  heap_ : IterHeap
  current_space_ : Nat

/-- The `SpaceIterator(Heap*)` constructor from `src/heap/spaces.cc`: the
cursor starts at `FIRST_MUTABLE_SPACE`. -/
def SpaceIterator.init (heap : IterHeap) : SpaceIterator :=
  ⟨heap, heap.FIRST_MUTABLE_SPACE⟩

/-- The cursor-advancing loop of `SpaceIterator::HasNext` from
`src/heap/spaces.cc`: `while (current_space_ <= LAST_MUTABLE_SPACE)`, stop at
the first non-null space, else increment the cursor. Returns the final value
of the cursor (the first id at or after `cur` holding a space, or
`LAST_MUTABLE_SPACE + 1` after falling through the loop). -/
def SpaceIterator.seek (h : IterHeap) (cur : Nat) : Nat :=
  if _hcur : cur ≤ h.LAST_MUTABLE_SPACE then
    if (h.space cur).isSome then cur else SpaceIterator.seek h (cur + 1)
  else cur
termination_by h.LAST_MUTABLE_SPACE + 1 - cur
decreasing_by omega

/-- `SpaceIterator::HasNext` from `src/heap/spaces.cc`: advance the cursor
past null slots; the call returns true iff the loop stopped at a non-null
space (i.e. the final cursor is still within range), and the iterator keeps
the advanced cursor. -/
def SpaceIterator.HasNext (it : SpaceIterator) : Bool × SpaceIterator :=
  (decide (SpaceIterator.seek it.heap_ it.current_space_ ≤
      it.heap_.LAST_MUTABLE_SPACE),
   { it with current_space_ := SpaceIterator.seek it.heap_ it.current_space_ })

/-- `SpaceIterator::Next` from `src/heap/spaces.cc`: return
`heap_->space(current_space_++)`. -/
def SpaceIterator.Next (it : SpaceIterator) : Option Nat × SpaceIterator :=
  (it.heap_.space it.current_space_,
   { it with current_space_ := it.current_space_ + 1 })

/-- The seek loop never moves the cursor backwards. -/
theorem SpaceIterator.seek_ge (h : IterHeap) (cur : Nat) :
    cur ≤ SpaceIterator.seek h cur := by
  unfold SpaceIterator.seek
  split
  · split
    · exact Nat.le_refl cur
    · exact Nat.le_trans (Nat.le_succ cur) (SpaceIterator.seek_ge h (cur + 1))
  · exact Nat.le_refl cur
termination_by h.LAST_MUTABLE_SPACE + 1 - cur
decreasing_by omega

/-- Past the end of the range, the seek loop leaves the cursor unchanged. -/
theorem SpaceIterator.seek_of_gt (h : IterHeap) (cur : Nat)
    (hcur : h.LAST_MUTABLE_SPACE < cur) : SpaceIterator.seek h cur = cur := by
  unfold SpaceIterator.seek
  simp [Nat.not_le_of_lt hcur]

/-- On a non-null in-range slot, the seek loop stops immediately. -/
theorem SpaceIterator.seek_of_some (h : IterHeap) (cur : Nat)
    (hcur : cur ≤ h.LAST_MUTABLE_SPACE) (hsome : (h.space cur).isSome = true) :
    SpaceIterator.seek h cur = cur := by
  unfold SpaceIterator.seek
  simp [hcur, hsome]

/-- On a null in-range slot, the seek loop skips to the next id. -/
theorem SpaceIterator.seek_of_none (h : IterHeap) (cur : Nat)
    (hcur : cur ≤ h.LAST_MUTABLE_SPACE) (hnone : h.space cur = none) :
    SpaceIterator.seek h cur = SpaceIterator.seek h (cur + 1) := by
  conv_lhs => unfold SpaceIterator.seek
  simp [hcur, hnone]

/-- When the seek loop stops within range, it stops on a non-null slot. -/
theorem SpaceIterator.seek_isSome (h : IterHeap) (cur : Nat)
    (hle : SpaceIterator.seek h cur ≤ h.LAST_MUTABLE_SPACE) :
    (h.space (SpaceIterator.seek h cur)).isSome = true := by
  by_cases hcur : cur ≤ h.LAST_MUTABLE_SPACE
  · by_cases hsome : (h.space cur).isSome = true
    · rw [SpaceIterator.seek_of_some h cur hcur hsome]
      exact hsome
    · have hnone : h.space cur = none := by
        cases hx : h.space cur
        · rfl
        · simp [hx] at hsome
      rw [SpaceIterator.seek_of_none h cur hcur hnone] at hle ⊢
      exact SpaceIterator.seek_isSome h (cur + 1) hle
  · rw [SpaceIterator.seek_of_gt h cur (by omega)] at hle
    omega
termination_by h.LAST_MUTABLE_SPACE + 1 - cur
decreasing_by omega

/-- The seek loop is idempotent: re-running it from its own result does not
move the cursor further. -/
theorem SpaceIterator.seek_idem (h : IterHeap) (cur : Nat) :
    SpaceIterator.seek h (SpaceIterator.seek h cur) =
      SpaceIterator.seek h cur := by
  by_cases hle : SpaceIterator.seek h cur ≤ h.LAST_MUTABLE_SPACE
  · exact SpaceIterator.seek_of_some h _ hle (SpaceIterator.seek_isSome h cur hle)
  · exact SpaceIterator.seek_of_gt h _ (by omega)

/-- The seek loop lands within range exactly when some non-null slot exists
at or after the start of the scan. -/
theorem SpaceIterator.seek_le_iff (h : IterHeap) (cur : Nat) :
    SpaceIterator.seek h cur ≤ h.LAST_MUTABLE_SPACE ↔
      ∃ i, cur ≤ i ∧ i ≤ h.LAST_MUTABLE_SPACE ∧ (h.space i).isSome = true := by
  by_cases hcur : cur ≤ h.LAST_MUTABLE_SPACE
  · by_cases hsome : (h.space cur).isSome = true
    · rw [SpaceIterator.seek_of_some h cur hcur hsome]
      exact ⟨fun _ => ⟨cur, Nat.le_refl cur, hcur, hsome⟩, fun _ => hcur⟩
    · have hnone : h.space cur = none := by
        cases hx : h.space cur
        · rfl
        · simp [hx] at hsome
      rw [SpaceIterator.seek_of_none h cur hcur hnone,
        SpaceIterator.seek_le_iff h (cur + 1)]
      constructor
      · rintro ⟨i, h1, h2, h3⟩
        exact ⟨i, by omega, h2, h3⟩
      · rintro ⟨i, h1, h2, h3⟩
        refine ⟨i, ?_, h2, h3⟩
        rcases Nat.eq_or_lt_of_le h1 with heq | hlt
        · rw [← heq] at h3
          rw [hnone] at h3
          simp at h3
        · omega
  · rw [SpaceIterator.seek_of_gt h cur (by omega)]
    constructor
    · intro hle
      omega
    · rintro ⟨i, h1, h2, h3⟩
      omega
termination_by h.LAST_MUTABLE_SPACE + 1 - cur
decreasing_by omega

/-- C9: on every reachable iterator state (the cursor never precedes
`FIRST_MUTABLE_SPACE`), `HasNext()` returns true iff a non-null space exists
at an id at or after the cursor and within
`[FIRST_MUTABLE_SPACE, LAST_MUTABLE_SPACE]`; and calling `HasNext()` twice in
a row yields the same result and the same iterator state as calling it once. -/
theorem HasNext_spec (it : SpaceIterator)
    (hfirst : it.heap_.FIRST_MUTABLE_SPACE ≤ it.current_space_) :
    ((SpaceIterator.HasNext it).1 = true ↔
        ∃ i, it.current_space_ ≤ i ∧ it.heap_.FIRST_MUTABLE_SPACE ≤ i ∧
          i ≤ it.heap_.LAST_MUTABLE_SPACE ∧ (it.heap_.space i).isSome = true) ∧
      SpaceIterator.HasNext (SpaceIterator.HasNext it).2 =
        SpaceIterator.HasNext it := by
  constructor
  · simp only [SpaceIterator.HasNext, decide_eq_true_eq]
    rw [SpaceIterator.seek_le_iff]
    constructor
    · rintro ⟨i, h1, h2, h3⟩
      exact ⟨i, h1, Nat.le_trans hfirst h1, h2, h3⟩
    · rintro ⟨i, h1, _, h2, h3⟩
      exact ⟨i, h1, h2, h3⟩
  · simp only [SpaceIterator.HasNext]
    simp only [SpaceIterator.seek_idem]

/-- C9 witness: the characterisation and idempotence on a concrete iterator
over a heap with spaces at ids 2, 5 and 7. -/
theorem HasNext_spec_witness :
    ((SpaceIterator.HasNext
          (SpaceIterator.init
            ⟨fun i => if i = 2 ∨ i = 5 ∨ i = 7 then some i else none,
              0, 7⟩)).1 = true ↔
        ∃ i, (SpaceIterator.init
            ⟨fun i => if i = 2 ∨ i = 5 ∨ i = 7 then some i else none,
              0, 7⟩).current_space_ ≤ i ∧
          (0 : Nat) ≤ i ∧ i ≤ 7 ∧
          ((if i = 2 ∨ i = 5 ∨ i = 7 then some i else none).isSome = true)) ∧
      SpaceIterator.HasNext
          (SpaceIterator.HasNext
            (SpaceIterator.init
              ⟨fun i => if i = 2 ∨ i = 5 ∨ i = 7 then some i else none,
                0, 7⟩)).2 =
        SpaceIterator.HasNext
          (SpaceIterator.init
            ⟨fun i => if i = 2 ∨ i = 5 ∨ i = 7 then some i else none,
              0, 7⟩) :=
  HasNext_spec
    (SpaceIterator.init
      ⟨fun i => if i = 2 ∨ i = 5 ∨ i = 7 then some i else none, 0, 7⟩)
    (Nat.le_refl 0)

/-- Driver for the documented iteration protocol: while `HasNext()` yields
true, call `Next()` and collect the returned spaces; return the collected
spaces together with the final iterator state. -/
def runIterator (it : SpaceIterator) : List Nat × SpaceIterator :=
  if hb : (SpaceIterator.HasNext it).1 = true then
    let q := SpaceIterator.Next (SpaceIterator.HasNext it).2
    let r := runIterator q.2
    (q.1.getD 0 :: r.1, r.2)
  else ([], (SpaceIterator.HasNext it).2)
termination_by it.heap_.LAST_MUTABLE_SPACE + 1 - it.current_space_
decreasing_by
  simp only [SpaceIterator.Next, SpaceIterator.HasNext, decide_eq_true_eq] at hb ⊢
  have hge := SpaceIterator.seek_ge it.heap_ it.current_space_
  omega

/-- Unfolding of `runIterator` when `HasNext` is false. -/
theorem runIterator_stop (it : SpaceIterator)
    (hb : (SpaceIterator.HasNext it).1 = false) :
    runIterator it = ([], (SpaceIterator.HasNext it).2) := by
  unfold runIterator
  simp [hb]

/-- Unfolding of `runIterator` when `HasNext` is true. -/
theorem runIterator_go (it : SpaceIterator)
    (hb : (SpaceIterator.HasNext it).1 = true) :
    runIterator it =
      ((SpaceIterator.Next (SpaceIterator.HasNext it).2).1.getD 0 ::
          (runIterator (SpaceIterator.Next (SpaceIterator.HasNext it).2).2).1,
        (runIterator (SpaceIterator.Next (SpaceIterator.HasNext it).2).2).2) := by
  conv_lhs => unfold runIterator
  simp [hb]

/-- The iteration protocol started at cursor `cur` collects exactly the
non-null spaces of the ids in `[cur, LAST_MUTABLE_SPACE]`, in ascending id
order, each once. -/
theorem runIterator_list (h : IterHeap) (cur : Nat) :
    (runIterator ⟨h, cur⟩).1 =
      (List.range' cur (h.LAST_MUTABLE_SPACE + 1 - cur)).filterMap h.space := by
  by_cases hcur : cur ≤ h.LAST_MUTABLE_SPACE
  · have hrange : h.LAST_MUTABLE_SPACE + 1 - cur =
        (h.LAST_MUTABLE_SPACE + 1 - (cur + 1)) + 1 := by omega
    cases hx : h.space cur with
    | some v =>
      have hseek : SpaceIterator.seek h cur = cur :=
        SpaceIterator.seek_of_some h cur hcur (by simp [hx])
      have hb : (SpaceIterator.HasNext (⟨h, cur⟩ : SpaceIterator)).1 = true := by
        simp [SpaceIterator.HasNext, hseek, hcur]
      rw [runIterator_go _ hb, hrange, List.range'_succ]
      have hrec := runIterator_list h (cur + 1)
      simp only [SpaceIterator.HasNext, SpaceIterator.Next, hseek] at *
      simp [hx, hrec]
    | none =>
      have hseek : SpaceIterator.seek h cur = SpaceIterator.seek h (cur + 1) :=
        SpaceIterator.seek_of_none h cur hcur hx
      have heq : runIterator ⟨h, cur⟩ = runIterator ⟨h, cur + 1⟩ := by
        conv_lhs => unfold runIterator
        conv_rhs => unfold runIterator
        simp only [SpaceIterator.HasNext, SpaceIterator.Next, hseek]
      rw [heq, hrange, List.range'_succ]
      have hrec := runIterator_list h (cur + 1)
      simp [hx, hrec]
  · have hseek : SpaceIterator.seek h cur = cur :=
      SpaceIterator.seek_of_gt h cur (by omega)
    have hb : (SpaceIterator.HasNext (⟨h, cur⟩ : SpaceIterator)).1 = false := by
      simp only [SpaceIterator.HasNext, hseek]
      simp
      omega
    rw [runIterator_stop _ hb]
    have hz : h.LAST_MUTABLE_SPACE + 1 - cur = 0 := by omega
    simp [hz]
termination_by h.LAST_MUTABLE_SPACE + 1 - cur
decreasing_by
  · omega
  · omega

/-- After the protocol stops, a further `HasNext()` on the final iterator
state still returns false. -/
theorem runIterator_final (it : SpaceIterator) :
    (SpaceIterator.HasNext (runIterator it).2).1 = false := by
  by_cases hb : (SpaceIterator.HasNext it).1 = true
  · rw [runIterator_go it hb]
    exact runIterator_final (SpaceIterator.Next (SpaceIterator.HasNext it).2).2
  · have hbf : (SpaceIterator.HasNext it).1 = false := by
      cases hbx : (SpaceIterator.HasNext it).1
      · rfl
      · exact absurd hbx hb
    rw [runIterator_stop it hbf]
    simp only [SpaceIterator.HasNext] at hbf ⊢
    simp only [SpaceIterator.seek_idem]
    exact hbf
termination_by it.heap_.LAST_MUTABLE_SPACE + 1 - it.current_space_
decreasing_by
  simp only [SpaceIterator.Next, SpaceIterator.HasNext, decide_eq_true_eq] at hb ⊢
  have hge := SpaceIterator.seek_ge it.heap_ it.current_space_
  omega

/-- C8: a fresh `SpaceIterator`, driven by the protocol (while `HasNext()`
do `Next()`), yields exactly the non-null spaces of the mutable range, each
once, in ascending id order, after which `HasNext()` is false; in particular
with `[FIRST_MUTABLE_SPACE, LAST_MUTABLE_SPACE] = [0, 7]` and spaces at ids
2, 5 and 7 it yields the sequence 2, 5, 7. -/
theorem SpaceIterator_enumerates :
    (∀ h : IterHeap,
        (runIterator (SpaceIterator.init h)).1 =
          (List.range' h.FIRST_MUTABLE_SPACE
            (h.LAST_MUTABLE_SPACE + 1 - h.FIRST_MUTABLE_SPACE)).filterMap
              h.space ∧
        (SpaceIterator.HasNext (runIterator (SpaceIterator.init h)).2).1 =
          false) ∧
      (runIterator (SpaceIterator.init
        ⟨fun i => if i = 2 ∨ i = 5 ∨ i = 7 then some i else none, 0, 7⟩)).1 =
        [2, 5, 7] := by
  constructor
  · intro h
    exact ⟨runIterator_list h h.FIRST_MUTABLE_SPACE, runIterator_final _⟩
  · rw [show (SpaceIterator.init
        ⟨fun i => if i = 2 ∨ i = 5 ∨ i = 7 then some i else none, 0, 7⟩) =
        (⟨⟨fun i => if i = 2 ∨ i = 5 ∨ i = 7 then some i else none, 0, 7⟩,
          0⟩ : SpaceIterator) from rfl]
    rw [runIterator_list]
    decide
